import Mathlib

/-!
Verification of the clustering orchestration workflow of `ClusterOps`
(`relevanceai/operations/cluster/cluster.py`) against its specification.

The Python code is shallowly embedded: vectors are lists of rationals,
numpy label arrays are lists of integers, documents are association lists
from (flattened) field paths to values, and the remote store is represented
by an explicit log of the write calls the orchestrator issues.
-/

namespace RelevanceAI

deriving instance DecidableEq for Except

/-! ## Embedding of Python `str` on integers

`_format_labels` renders raw label codes with `f"cluster-{str(label)}"`;
`strNat`/`strInt` embed Python's decimal rendering of `int`. -/

/-- Decimal digit character (for digits `0`–`9`). -/
def digitCh (d : Nat) : Char :=
  if d = 0 then '0' else if d = 1 then '1' else if d = 2 then '2' else if d = 3 then '3'
  else if d = 4 then '4' else if d = 5 then '5' else if d = 6 then '6' else if d = 7 then '7'
  else if d = 8 then '8' else '9'

/-- Fuel-driven most-significant-first decimal digit list of a natural number. -/
def strNatCore : Nat → Nat → List Char
  | _, 0 => []
  | 0, _ + 1 => []
  | fuel + 1, n + 1 => strNatCore fuel ((n + 1) / 10) ++ [digitCh ((n + 1) % 10)]

/-- Embedding of Python `str` on a non-negative integer. -/
def strNat (n : Nat) : String :=
  if n = 0 then "0" else String.mk (strNatCore n n)

/-- Embedding of Python `str` on an integer. -/
def strInt : Int → String
  | .ofNat n => strNat n
  | .negSucc n => "-" ++ strNat (n + 1)

theorem strNatCore_eq_digits (fuel : Nat) :
    ∀ n : Nat, n ≤ fuel → strNatCore fuel n = ((Nat.digits 10 n).map digitCh).reverse := by
  induction fuel with
  | zero =>
    intro n hn
    have : n = 0 := Nat.le_zero.mp hn
    subst this
    simp [strNatCore]
  | succ f ih =>
    intro n hn
    match n with
    | 0 => simp [strNatCore]
    | m + 1 =>
      have hdiv : (m + 1) / 10 ≤ f := by
        have h1 : (m + 1) / 10 < m + 1 := Nat.div_lt_self (Nat.succ_pos m) (by norm_num)
        omega
      rw [show strNatCore (f + 1) (m + 1)
            = strNatCore f ((m + 1) / 10) ++ [digitCh ((m + 1) % 10)] from rfl,
        ih _ hdiv, Nat.digits_def' (by norm_num : (1 : ℕ) < 10) (Nat.succ_pos m)]
      simp

theorem digitCh_inj : ∀ d₁, d₁ < 10 → ∀ d₂, d₂ < 10 → digitCh d₁ = digitCh d₂ → d₁ = d₂ := by
  decide

theorem digitCh_ne_dash : ∀ d, d < 10 → digitCh d ≠ '-' := by decide

theorem map_digitCh_inj :
    ∀ l₁ l₂ : List Nat, (∀ d ∈ l₁, d < 10) → (∀ d ∈ l₂, d < 10) →
      l₁.map digitCh = l₂.map digitCh → l₁ = l₂ := by
  intro l₁
  induction l₁ with
  | nil =>
    intro l₂ _ _ h
    cases l₂ with
    | nil => rfl
    | cons b t => simp at h
  | cons a t ih =>
    intro l₂ h₁ h₂ h
    cases l₂ with
    | nil => simp at h
    | cons b t₂ =>
      simp only [List.map_cons, List.cons.injEq] at h
      have ha : a < 10 := h₁ a (List.mem_cons_self a t)
      have hb : b < 10 := h₂ b (List.mem_cons_self b t₂)
      have hab : a = b := digitCh_inj a ha b hb h.1
      have ht : t = t₂ :=
        ih t₂ (fun d hd => h₁ d (List.mem_cons_of_mem a hd))
          (fun d hd => h₂ d (List.mem_cons_of_mem b hd)) h.2
      rw [hab, ht]

theorem mem_digits10_lt {n d : Nat} (hd : d ∈ Nat.digits 10 n) : d < 10 :=
  Nat.digits_lt_base (by norm_num) hd

theorem strNat_data_ne_dash (n : Nat) : ∀ c ∈ (strNat n).data, c ≠ '-' := by
  intro c hc
  by_cases hn : n = 0
  · subst hn
    simp only [strNat, if_pos rfl] at hc
    have : c = '0' := by
      simpa using hc
    subst this
    decide
  · simp only [strNat, if_neg hn] at hc
    rw [strNatCore_eq_digits n n le_rfl] at hc
    simp only [List.mem_reverse, List.mem_map] at hc
    obtain ⟨d, hd, rfl⟩ := hc
    exact digitCh_ne_dash d (mem_digits10_lt hd)

theorem strNat_inj : ∀ a b : Nat, strNat a = strNat b → a = b := by
  have key : ∀ b : Nat, b ≠ 0 → ¬ ("0" : String) = strNat b := by
    intro b hb h
    have hd := congrArg String.data h
    simp only [strNat, if_neg hb] at hd
    rw [strNatCore_eq_digits b b le_rfl] at hd
    have hrev : (Nat.digits 10 b).map digitCh = ['0'] := by
      have := congrArg List.reverse hd
      simpa using this.symm
    cases hdig : Nat.digits 10 b with
    | nil => rw [hdig] at hrev; simp at hrev
    | cons d t =>
      rw [hdig] at hrev
      simp only [List.map_cons, List.cons.injEq, List.map_eq_nil_iff] at hrev
      have hdlt : d < 10 := mem_digits10_lt (hdig ▸ List.mem_cons_self d t)
      have hd0 : d = 0 := digitCh_inj d hdlt 0 (by norm_num) (by rw [hrev.1]; rfl)
      have hofd := Nat.ofDigits_digits 10 b
      rw [hdig, hrev.2, hd0] at hofd
      simp [Nat.ofDigits] at hofd
      exact hb hofd.symm
  intro a b h
  by_cases ha : a = 0 <;> by_cases hb : b = 0
  · rw [ha, hb]
  · subst ha
    exact absurd (by simpa [strNat] using h) (key b hb)
  · subst hb
    exact absurd (by simpa [strNat] using h.symm) (key a ha)
  · simp only [strNat, if_neg ha, if_neg hb] at h
    have hdata : strNatCore a a = strNatCore b b := congrArg String.data h
    rw [strNatCore_eq_digits a a le_rfl, strNatCore_eq_digits b b le_rfl] at hdata
    have hmap : (Nat.digits 10 a).map digitCh = (Nat.digits 10 b).map digitCh :=
      List.reverse_injective hdata
    have hdig : Nat.digits 10 a = Nat.digits 10 b :=
      map_digitCh_inj _ _ (fun d hd => mem_digits10_lt hd) (fun d hd => mem_digits10_lt hd) hmap
    have := congrArg (Nat.ofDigits 10) hdig
    rwa [Nat.ofDigits_digits, Nat.ofDigits_digits] at this

theorem strNat_ne_dash_append (a : Nat) (s : String) : strNat a ≠ "-" ++ s := by
  intro h
  have hd := congrArg String.data h
  rw [String.data_append] at hd
  have : '-' ∈ (strNat a).data := by
    rw [hd]
    exact List.mem_append_left _ (by decide)
  exact strNat_data_ne_dash a '-' this rfl

theorem strInt_inj : Function.Injective strInt := by
  intro a b h
  match a, b with
  | .ofNat a, .ofNat b =>
    exact congrArg Int.ofNat (strNat_inj a b h)
  | .ofNat a, .negSucc b =>
    exact absurd h (strNat_ne_dash_append a _)
  | .negSucc a, .ofNat b =>
    exact absurd h.symm (strNat_ne_dash_append b _)
  | .negSucc a, .negSucc b =>
    simp only [strInt] at h
    have hd := congrArg String.data h
    rw [String.data_append, String.data_append] at hd
    have hdash : ("-" : String).data = ['-'] := rfl
    rw [hdash] at hd
    simp only [List.cons_append, List.nil_append, List.cons.injEq, true_and] at hd
    have : strNat (a + 1) = strNat (b + 1) := congrArg String.mk hd
    have hab : a = b := Nat.succ_injective (strNat_inj _ _ this)
    rw [hab]

/-! ## `ClusterOps._format_labels`

Source (cluster.py:224-232): flatten the raw label array and render each
code as `f"cluster-{str(label)}"`, except codes equal to `outlier_value`,
which become `outlier_label`. -/

/-- Embedding of `ClusterOps._format_labels`: the flattened numpy array is a
`List Int`; the comprehension maps each code independently. -/
def format_labels (outlier_value : Int) (outlier_label : String) (labels : List Int) :
    List String :=
  labels.map fun label =>
    if label ≠ outlier_value then "cluster-" ++ strInt label else outlier_label

theorem string_append_left_cancel {s t u : String} (h : s ++ t = s ++ u) : t = u := by
  have hd := congrArg String.data h
  rw [String.data_append, String.data_append] at hd
  have := List.append_cancel_left hd
  calc t = String.mk t.data := rfl
    _ = String.mk u.data := congrArg String.mk this
    _ = u := rfl

theorem outlier_ne_cluster (s : String) : "outlier" ≠ "cluster-" ++ s := by
  intro h
  have hd := congrArg String.data h
  rw [String.data_append] at hd
  have h1 : ("outlier" : String).data = ['o', 'u', 't', 'l', 'i', 'e', 'r'] := rfl
  have h2 : ("cluster-" : String).data = ['c', 'l', 'u', 's', 't', 'e', 'r', '-'] := rfl
  rw [h1, h2] at hd
  simp at hd

/-- The default label formatting (`outlier_value = -1`, `outlier_label = "outlier"`)
is injective on codes. -/
theorem fmt_default_inj :
    Function.Injective fun c : Int => if c = -1 then "outlier" else "cluster-" ++ strInt c := by
  intro c₁ c₂ h
  simp only at h
  by_cases h₁ : c₁ = -1 <;> by_cases h₂ : c₂ = -1
  · rw [h₁, h₂]
  · rw [if_pos h₁, if_neg h₂] at h
    exact absurd h (outlier_ne_cluster _)
  · rw [if_neg h₁, if_pos h₂] at h
    exact absurd h.symm (outlier_ne_cluster _)
  · rw [if_neg h₁, if_neg h₂] at h
    exact strInt_inj (string_append_left_cancel h)

theorem dedup_map_of_inj {α β : Type} [DecidableEq α] [DecidableEq β]
    (f : α → β) (hf : Function.Injective f) (l : List α) :
    (l.map f).dedup = l.dedup.map f := by
  induction l with
  | nil => simp
  | cons a t ih =>
    by_cases ha : a ∈ t
    · rw [List.map_cons, List.dedup_cons_of_mem (List.mem_map_of_mem f ha),
        List.dedup_cons_of_mem ha, ih]
    · have hfa : f a ∉ t.map f := by
        intro hmem
        obtain ⟨x, hx, hfx⟩ := List.mem_map.mp hmem
        exact ha (hf hfx ▸ hx)
      rw [List.map_cons, List.dedup_cons_of_not_mem hfa, List.dedup_cons_of_not_mem ha,
        ih, List.map_cons]

/-- C6: `_format_labels` maps each raw code equal to the configured sentinel
`outlier_value` to the configured `outlier_label`, and every other code `c` to
`"cluster-" ++ str c`; it is length-preserving and total over every integer
list (it is a pure function of its arguments). -/
theorem format_labels_spec (ov : Int) (ol : String) (labels : List Int) :
    (format_labels ov ol labels).length = labels.length ∧
    ∀ i : Nat,
      (format_labels ov ol labels)[i]? =
        (labels[i]?).map fun c => if c = ov then ol else "cluster-" ++ strInt c := by
  constructor
  · simp [format_labels]
  · intro i
    simp only [format_labels, List.getElem?_map]
    cases labels[i]? with
    | none => rfl
    | some c =>
      by_cases hc : c = ov
      · simp [hc]
      · simp [hc]

/-- C9: with the default sentinel `-1` and default outlier label `"outlier"`,
the number of distinct canonical labels produced by `_format_labels` equals the
number of distinct input codes (all sentinel occurrences collapse to the single
outlier label); in particular `[0, 0, 1, -1, -1]` maps to
`["cluster-0", "cluster-0", "cluster-1", "outlier", "outlier"]`. -/
theorem format_labels_distinct_card (labels : List Int) :
    (format_labels (-1) "outlier" labels).dedup.length = labels.dedup.length ∧
    format_labels (-1) "outlier" [0, 0, 1, -1, -1] =
      ["cluster-0", "cluster-0", "cluster-1", "outlier", "outlier"] := by
  constructor
  · have hrw : format_labels (-1) "outlier" labels =
        labels.map fun c : Int => if c = -1 then "outlier" else "cluster-" ++ strInt c := by
      apply List.map_congr_left
      intro c _
      by_cases hc : c = -1
      · rw [if_neg (by simpa using hc), if_pos hc]
      · rw [if_pos hc, if_neg hc]
    rw [hrw, dedup_map_of_inj _ fmt_default_inj, List.length_map]
  · decide

/-! ## `ClusterOps._get_centroid_documents`

Source (cluster.py:234-253): iterate over `zip(labels, vectors)` filling an
insertion-ordered dict `centroids : label -> member vectors`, then emit, per
dict entry, `dict(_id=label, centroid_vector=np.array(vectors).mean(0))`.
Vector entries are rationals (exact float64-free semantics). -/

abbrev Vec := List ℚ

/-- Elementwise vector addition (`zipWith` truncates to the common length;
numpy input is rectangular, where both agree). -/
def addVec (a b : Vec) : Vec := List.zipWith (· + ·) a b

/-- Row-wise sum of a list of vectors (the summation inside `np.mean(0)`). -/
def sumVecs : List Vec → Vec
  | [] => []
  | [v] => v
  | v :: vs => addVec v (sumVecs vs)

/-- Elementwise arithmetic mean of a group of vectors: `np.array(vs).mean(0)`. -/
def meanVec (vs : List Vec) : Vec := (sumVecs vs).map (· / (vs.length : ℚ))

/-- A centroid record `dict(_id=label, centroid_vector=mean)`. -/
structure CentroidDoc where
  _id : String
  centroid_vector : Vec
deriving DecidableEq

/-- One step of the grouping loop: Python-dict update — append the vector to
the (unique, first-matching) entry of `label` when present, else add a new
entry at the end. -/
def addToGroups : List (String × List Vec) → String → Vec → List (String × List Vec)
  | [], label, v => [(label, [v])]
  | g :: gs, label, v =>
    if g.1 = label then (g.1, g.2 ++ [v]) :: gs else g :: addToGroups gs label v

/-- The grouping loop `for label, vector in zip(labels, vectors)` of
`_get_centroid_documents`, the insertion-ordered dict as an association list. -/
def buildGroups (pairs : List (String × Vec)) : List (String × List Vec) :=
  pairs.foldl (fun gs p => addToGroups gs p.1 p.2) []

/-- Embedding of `ClusterOps._get_centroid_documents`. -/
def get_centroid_documents (vectors : List Vec) (labels : List String) :
    List CentroidDoc :=
  (buildGroups (labels.zip vectors)).map fun g => ⟨g.1, meanVec g.2⟩

/-- First-match lookup in the association list of groups (dict access). -/
def groupOf : List (String × List Vec) → String → List Vec
  | [], _ => []
  | g :: gs, l => if g.1 = l then g.2 else groupOf gs l

theorem groupOf_addToGroups (lab : String) (v : Vec) :
    ∀ (gs : List (String × List Vec)) (l : String),
      groupOf (addToGroups gs lab v) l =
        if l = lab then groupOf gs l ++ [v] else groupOf gs l := by
  intro gs
  induction gs with
  | nil =>
    intro l
    by_cases hl : l = lab
    · simp [addToGroups, groupOf, hl]
    · have hl' : ¬ lab = l := fun h => hl h.symm
      simp [addToGroups, groupOf, hl, hl']
  | cons g gs ih =>
    intro l
    by_cases hg : g.1 = lab
    · rw [show addToGroups (g :: gs) lab v = (g.1, g.2 ++ [v]) :: gs from by
        simp [addToGroups, hg]]
      by_cases hl : l = lab
      · have hg1 : g.1 = l := by rw [hg, hl]
        simp [groupOf, hg1, hl]
      · have hg1 : ¬ g.1 = l := fun h => hl (h.symm.trans hg)
        simp [groupOf, hg1, hl]
    · rw [show addToGroups (g :: gs) lab v = g :: addToGroups gs lab v from by
        simp [addToGroups, hg]]
      by_cases hgl : g.1 = l
      · have hl : ¬ l = lab := fun h => hg (hgl.trans h)
        simp [groupOf, hgl, hl]
      · simp [groupOf, hgl, ih l]

theorem keys_addToGroups (lab : String) (v : Vec) :
    ∀ gs : List (String × List Vec),
      (addToGroups gs lab v).map Prod.fst =
        if lab ∈ gs.map Prod.fst then gs.map Prod.fst else gs.map Prod.fst ++ [lab] := by
  intro gs
  induction gs with
  | nil => simp [addToGroups]
  | cons g gs ih =>
    by_cases hg : g.1 = lab
    · rw [show addToGroups (g :: gs) lab v = (g.1, g.2 ++ [v]) :: gs from by
        simp [addToGroups, hg]]
      simp [hg]
    · rw [show addToGroups (g :: gs) lab v = g :: addToGroups gs lab v from by
        simp [addToGroups, hg]]
      have hg' : ¬ lab = g.1 := fun h => hg h.symm
      by_cases hmem : lab ∈ gs.map Prod.fst
      · simp [ih, hmem, hg']
      · simp [ih, hmem, hg']

theorem mem_keys_addToGroups (lab l : String) (v : Vec) (gs : List (String × List Vec)) :
    l ∈ (addToGroups gs lab v).map Prod.fst ↔ l ∈ gs.map Prod.fst ∨ l = lab := by
  rw [keys_addToGroups]
  by_cases hmem : lab ∈ gs.map Prod.fst
  · rw [if_pos hmem]
    constructor
    · exact Or.inl
    · rintro (h | rfl)
      · exact h
      · exact hmem
  · rw [if_neg hmem]
    simp

theorem nodup_keys_addToGroups (lab : String) (v : Vec) (gs : List (String × List Vec))
    (h : (gs.map Prod.fst).Nodup) : ((addToGroups gs lab v).map Prod.fst).Nodup := by
  rw [keys_addToGroups]
  by_cases hmem : lab ∈ gs.map Prod.fst
  · rwa [if_pos hmem]
  · rw [if_neg hmem, List.nodup_append]
    exact ⟨h, List.nodup_singleton lab, by simpa using fun hlab => hmem hlab⟩

theorem groupOf_entry :
    ∀ gs : List (String × List Vec), (gs.map Prod.fst).Nodup →
      ∀ g ∈ gs, groupOf gs g.1 = g.2 := by
  intro gs
  induction gs with
  | nil => intro _ g hg; simp at hg
  | cons h gs ih =>
    intro hnd g hg
    rw [List.map_cons, List.nodup_cons] at hnd
    rcases List.mem_cons.mp hg with rfl | hg'
    · simp [groupOf]
    · have hne : ¬ h.1 = g.1 := by
        intro he
        exact hnd.1 (he ▸ List.mem_map_of_mem Prod.fst hg')
      simp [groupOf, hne, ih hnd.2 g hg']

theorem groupOf_foldl :
    ∀ (ps : List (String × Vec)) (gs : List (String × List Vec)) (l : String),
      groupOf (ps.foldl (fun gs p => addToGroups gs p.1 p.2) gs) l =
        groupOf gs l ++ (ps.filter fun p => p.1 = l).map Prod.snd := by
  intro ps
  induction ps with
  | nil => intro gs l; simp
  | cons p ps ih =>
    intro gs l
    rw [List.foldl_cons, ih, groupOf_addToGroups]
    by_cases hp : p.1 = l
    · rw [if_pos hp.symm, List.filter_cons_of_pos (by simpa using hp), List.map_cons,
        List.append_assoc, List.singleton_append]
    · rw [if_neg (fun h => hp h.symm), List.filter_cons_of_neg (by simpa using hp)]

theorem mem_keys_foldl :
    ∀ (ps : List (String × Vec)) (gs : List (String × List Vec)) (l : String),
      l ∈ (ps.foldl (fun gs p => addToGroups gs p.1 p.2) gs).map Prod.fst ↔
        l ∈ gs.map Prod.fst ∨ l ∈ ps.map Prod.fst := by
  intro ps
  induction ps with
  | nil => intro gs l; simp
  | cons p ps ih =>
    intro gs l
    rw [List.foldl_cons, ih, mem_keys_addToGroups]
    simp only [List.map_cons, List.mem_cons]
    tauto

theorem nodup_keys_foldl :
    ∀ (ps : List (String × Vec)) (gs : List (String × List Vec)),
      (gs.map Prod.fst).Nodup →
      ((ps.foldl (fun gs p => addToGroups gs p.1 p.2) gs).map Prod.fst).Nodup := by
  intro ps
  induction ps with
  | nil => intro gs h; simpa using h
  | cons p ps ih =>
    intro gs h
    rw [List.foldl_cons]
    exact ih _ (nodup_keys_addToGroups p.1 p.2 gs h)

theorem nodup_keys_buildGroups (ps : List (String × Vec)) :
    ((buildGroups ps).map Prod.fst).Nodup :=
  nodup_keys_foldl ps [] (by simp)

theorem groupOf_buildGroups (ps : List (String × Vec)) (l : String) :
    groupOf (buildGroups ps) l = (ps.filter fun p => p.1 = l).map Prod.snd := by
  rw [buildGroups, groupOf_foldl]
  simp [groupOf]

theorem mem_keys_buildGroups (ps : List (String × Vec)) (l : String) :
    l ∈ (buildGroups ps).map Prod.fst ↔ l ∈ ps.map Prod.fst := by
  rw [buildGroups, mem_keys_foldl]
  simp

/-- Membership characterisation of the emitted centroid records: one per
distinct label, carrying the mean of exactly that label's member vectors. -/
theorem mem_get_centroid_documents (vectors : List Vec) (labels : List String)
    (d : CentroidDoc) :
    d ∈ get_centroid_documents vectors labels ↔
      ∃ l ∈ (labels.zip vectors).map Prod.fst,
        d = ⟨l, meanVec (((labels.zip vectors).filter fun p => p.1 = l).map Prod.snd)⟩ := by
  constructor
  · intro hd
    obtain ⟨g, hg, rfl⟩ := List.mem_map.mp hd
    refine ⟨g.1, ?_, ?_⟩
    · rw [← mem_keys_buildGroups]
      exact List.mem_map_of_mem Prod.fst hg
    · have := groupOf_entry (buildGroups (labels.zip vectors))
        (nodup_keys_buildGroups _) g hg
      rw [← groupOf_buildGroups, this]
  · rintro ⟨l, hl, rfl⟩
    rw [← mem_keys_buildGroups] at hl
    obtain ⟨g, hg, hgl⟩ := List.mem_map.mp hl
    have hentry := groupOf_entry (buildGroups (labels.zip vectors))
      (nodup_keys_buildGroups _) g hg
    have : (⟨l, meanVec (((labels.zip vectors).filter fun p => p.1 = l).map Prod.snd)⟩ :
        CentroidDoc) = ⟨g.1, meanVec g.2⟩ := by
      rw [← hgl, ← groupOf_buildGroups, hentry]
    rw [this]
    exact List.mem_map_of_mem _ hg

theorem addVec_comm (a b : Vec) : addVec a b = addVec b a :=
  List.zipWith_comm_of_comm _ (fun x y => add_comm x y) a b

theorem addVec_left_comm : ∀ a b c : Vec, addVec a (addVec b c) = addVec b (addVec a c) := by
  intro a
  induction a with
  | nil => intro b c; simp [addVec]
  | cons x xs ih =>
    intro b c
    cases b with
    | nil => simp [addVec]
    | cons y ys =>
      cases c with
      | nil => simp [addVec]
      | cons z zs =>
        show (x + (y + z)) :: addVec xs (addVec ys zs) =
          (y + (x + z)) :: addVec ys (addVec xs zs)
        rw [add_left_comm, ih ys zs]

theorem sumVecs_cons_of_ne_nil (v : Vec) {vs : List Vec} (h : vs ≠ []) :
    sumVecs (v :: vs) = addVec v (sumVecs vs) := by
  cases vs with
  | nil => exact absurd rfl h
  | cons w ws => rfl

theorem sumVecs_perm : ∀ {vs₁ vs₂ : List Vec}, vs₁.Perm vs₂ → sumVecs vs₁ = sumVecs vs₂ := by
  intro vs₁ vs₂ h
  induction h with
  | nil => rfl
  | @cons x l₁ l₂ h ih =>
    cases l₁ with
    | nil =>
      have : l₂ = [] := h.symm.eq_nil
      rw [this]
    | cons a t =>
      cases l₂ with
      | nil => exact absurd h.eq_nil (by simp)
      | cons b t₂ =>
        rw [sumVecs_cons_of_ne_nil x (by simp), sumVecs_cons_of_ne_nil x (by simp), ih]
  | swap x y l =>
    cases l with
    | nil =>
      show addVec y x = addVec x y
      exact addVec_comm y x
    | cons z zs =>
      show addVec y (addVec x (sumVecs (z :: zs))) = addVec x (addVec y (sumVecs (z :: zs)))
      exact addVec_left_comm y x _
  | trans h₁ h₂ ih₁ ih₂ => exact ih₁.trans ih₂

theorem meanVec_perm {vs₁ vs₂ : List Vec} (h : vs₁.Perm vs₂) : meanVec vs₁ = meanVec vs₂ := by
  rw [meanVec, meanVec, sumVecs_perm h, h.length_eq]

theorem sumVecs_getElem? :
    ∀ (vs : List Vec) (n : Nat), vs ≠ [] → (∀ v ∈ vs, v.length = n) →
      ∀ j : Nat, j < n → (sumVecs vs)[j]? = some ((vs.map fun v => v.getD j 0).sum) := by
  intro vs
  induction vs with
  | nil => intro n h; exact absurd rfl h
  | cons v vs ih =>
    intro n _ hlen j hj
    have hvlen : v.length = n := hlen v (List.mem_cons_self v vs)
    have hv : v[j]? = some (v.getD j 0) := by
      have hjv : j < v.length := hvlen ▸ hj
      rw [List.getElem?_eq_getElem hjv, List.getD_eq_getElem v 0 hjv]
    cases vs with
    | nil =>
      show v[j]? = some ((v.getD j 0) + 0)
      rw [hv, add_zero]
    | cons w ws =>
      rw [sumVecs_cons_of_ne_nil v (by simp)]
      have hrest := ih n (by simp)
        (fun u hu => hlen u (List.mem_cons_of_mem v hu)) j hj
      show (List.zipWith (· + ·) v (sumVecs (w :: ws)))[j]? = _
      rw [List.getElem?_zipWith, hv, hrest]
      simp

theorem sumVecs_length :
    ∀ (vs : List Vec) (n : Nat), vs ≠ [] → (∀ v ∈ vs, v.length = n) →
      (sumVecs vs).length = n := by
  intro vs
  induction vs with
  | nil => intro n h; exact absurd rfl h
  | cons v vs ih =>
    intro n _ hlen
    have hvlen : v.length = n := hlen v (List.mem_cons_self v vs)
    cases vs with
    | nil => exact hvlen
    | cons w ws =>
      rw [sumVecs_cons_of_ne_nil v (by simp)]
      have := ih n (by simp) (fun u hu => hlen u (List.mem_cons_of_mem v hu))
      show (List.zipWith (· + ·) v (sumVecs (w :: ws))).length = n
      rw [List.length_zipWith, hvlen, this, min_self]

theorem meanVec_getElem? (vs : List Vec) (n : Nat) (hne : vs ≠ [])
    (hlen : ∀ v ∈ vs, v.length = n) (j : Nat) (hj : j < n) :
    (meanVec vs)[j]? = some ((vs.map fun v => v.getD j 0).sum / (vs.length : ℚ)) := by
  rw [meanVec, List.getElem?_map, sumVecs_getElem? vs n hne hlen j hj]
  rfl

/-- C7: `_get_centroid_documents` emits exactly one record per distinct label
(the `_id` fields are exactly the labels that occur, without duplicates), and
each record's `centroid_vector` is the element-wise arithmetic mean of that
label's member vectors; in particular vectors `[[0,0],[2,2]]` both labelled
`"cluster-0"` yield the single centroid `[1, 1]`. -/
theorem get_centroid_documents_spec (vectors : List Vec) (labels : List String)
    (hlen : labels.length = vectors.length) :
    ((get_centroid_documents vectors labels).map CentroidDoc._id).Nodup ∧
    (∀ l : String,
      l ∈ (get_centroid_documents vectors labels).map CentroidDoc._id ↔ l ∈ labels) ∧
    (∀ d ∈ get_centroid_documents vectors labels,
      d.centroid_vector =
        meanVec (((labels.zip vectors).filter fun p => p.1 = d._id).map Prod.snd) ∧
      ∀ n : Nat,
        (∀ v ∈ ((labels.zip vectors).filter fun p => p.1 = d._id).map Prod.snd,
          v.length = n) →
        ∀ j : Nat, j < n →
          d.centroid_vector[j]? =
            some (((((labels.zip vectors).filter fun p => p.1 = d._id).map Prod.snd).map
                  fun v => v.getD j 0).sum /
              (((((labels.zip vectors).filter fun p => p.1 = d._id).map Prod.snd).length : ℚ)))) ∧
    get_centroid_documents [[0, 0], [2, 2]] ["cluster-0", "cluster-0"] =
      [⟨"cluster-0", [1, 1]⟩] := by
  have hids : (get_centroid_documents vectors labels).map CentroidDoc._id =
      (buildGroups (labels.zip vectors)).map Prod.fst := by
    rw [get_centroid_documents, List.map_map]
    rfl
  have hfst : (labels.zip vectors).map Prod.fst = labels :=
    List.map_fst_zip labels vectors (le_of_eq hlen)
  refine ⟨?_, ?_, ?_, by
    norm_num [get_centroid_documents, buildGroups, addToGroups, meanVec, sumVecs, addVec]⟩
  · rw [hids]
    exact nodup_keys_buildGroups _
  · intro l
    rw [hids, mem_keys_buildGroups, hfst]
  · intro d hd
    obtain ⟨l, hl, rfl⟩ := (mem_get_centroid_documents vectors labels d).mp hd
    refine ⟨rfl, ?_⟩
    intro n hmem j hj
    have hne : ((labels.zip vectors).filter fun p => p.1 = l).map Prod.snd ≠ [] := by
      obtain ⟨p, hp, hpl⟩ := List.mem_map.mp hl
      have hpf : p ∈ (labels.zip vectors).filter fun p => p.1 = l :=
        List.mem_filter.mpr ⟨hp, by simpa using hpl⟩
      exact List.ne_nil_of_mem (List.mem_map_of_mem Prod.snd hpf)
    exact meanVec_getElem? _ n hne hmem j hj

/-- Witness for C7 at the concrete input from the specification. -/
theorem get_centroid_documents_spec_witness :
    (["cluster-0", "cluster-0"] : List String).length = ([[0, 0], [2, 2]] : List Vec).length ∧
    get_centroid_documents [[0, 0], [2, 2]] ["cluster-0", "cluster-0"] =
      [⟨"cluster-0", [1, 1]⟩] :=
  ⟨by decide,
    (get_centroid_documents_spec [[0, 0], [2, 2]] ["cluster-0", "cluster-0"] (by decide)).2.2.2⟩

/-- C8: `_get_centroid_documents` is order-independent — permuting the
(label, vector) pairs yields the same set of centroid records (membership is
preserved both ways; order in the emitted list may differ). -/
theorem get_centroid_documents_perm (v₁ : List Vec) (l₁ : List String)
    (v₂ : List Vec) (l₂ : List String)
    (h₁ : l₁.length = v₁.length) (h₂ : l₂.length = v₂.length)
    (hperm : (l₁.zip v₁).Perm (l₂.zip v₂)) (d : CentroidDoc) :
    d ∈ get_centroid_documents v₁ l₁ ↔ d ∈ get_centroid_documents v₂ l₂ := by
  rw [mem_get_centroid_documents, mem_get_centroid_documents]
  constructor
  · rintro ⟨l, hl, rfl⟩
    refine ⟨l, (hperm.map Prod.fst).mem_iff.mp hl, ?_⟩
    have hm := meanVec_perm ((hperm.filter (fun p => p.1 = l)).map Prod.snd)
    rw [hm]
  · rintro ⟨l, hl, rfl⟩
    refine ⟨l, (hperm.map Prod.fst).mem_iff.mpr hl, ?_⟩
    have hm := meanVec_perm ((hperm.symm.filter (fun p => p.1 = l)).map Prod.snd)
    rw [hm]

/-- Witness for C8 at a concrete transposition of two labelled vectors. -/
theorem get_centroid_documents_perm_witness :
    (["a", "b"].zip ([[1], [2]] : List Vec)).Perm (["b", "a"].zip ([[2], [1]] : List Vec)) ∧
    ((⟨"a", [1]⟩ : CentroidDoc) ∈ get_centroid_documents [[1], [2]] ["a", "b"] ↔
      (⟨"a", [1]⟩ : CentroidDoc) ∈ get_centroid_documents [[2], [1]] ["b", "a"]) :=
  ⟨List.Perm.swap _ _ _,
    get_centroid_documents_perm [[1], [2]] ["a", "b"] [[2], [1]] ["b", "a"]
      rfl rfl (List.Perm.swap _ _ _) ⟨"a", [1]⟩⟩

/-! ## Documents, fields, and the orchestration state

`ClusterOps` inherits `get_field` / `is_field` / `set_field_across_documents`
from the doc-utils mixin of `APIClient`; that module is not part of the
clustering source file, so those helpers are modelled from the spec's data
model (documents are mappings from flattened field paths to values). -/

/-- A document field value: an embedding vector or a string label. -/
inductive FieldValue
  | vec : Vec → FieldValue
  | str : String → FieldValue
deriving DecidableEq

/-- A document: a mapping from (flattened) field paths to values. -/
abbrev Document := List (String × FieldValue)

/-- Modelled from the spec: `is_field` (doc-utils, not under `src/`) — whether
the document contains the field path. -/
def is_field (field : String) (doc : Document) : Bool :=
  doc.any fun kv => kv.1 = field

/-- Modelled from the spec: `get_field` (doc-utils, not under `src/`) — the
value at the field path; only called on documents that contain it. -/
def get_field (field : String) (doc : Document) : FieldValue :=
  ((doc.find? fun kv => kv.1 = field).map Prod.snd).getD (.str "")

/-- The numeric rows numpy builds from field values. -/
def asVec : FieldValue → Vec
  | .vec v => v
  | .str _ => []

/-- Modelled from the spec: `set_field` (doc-utils, not under `src/`) —
overwrite the first entry carrying the field path, else append the field. -/
def set_field (field : String) (value : FieldValue) : Document → Document
  | [] => [(field, value)]
  | kv :: doc =>
    if kv.1 = field then (field, value) :: doc else kv :: set_field field value doc

/-- The vector matrix of `_fit_predict` (cluster.py:271-277): rows for exactly
the documents that contain the vector field, in document order. -/
def matrixOf (vector_field : String) (documents : List Document) : List Vec :=
  (documents.filter fun d => is_field vector_field d).map fun d =>
    asVec (get_field vector_field d)

/-- Modelled from the spec: `set_field_across_documents` (doc-utils, not under
`src/`) as used in step 6 of the orchestration — attach the canonical labels,
in order, to the documents containing the selected vector field; documents
missing the field pass through unlabeled (spec step 3). -/
def set_field_across_documents (vector_field field : String) (values : List String) :
    List Document → List Document
  | [] => []
  | d :: ds =>
    if is_field vector_field d then
      match values with
      | [] => d :: ds
      | v :: vs =>
        set_field field (.str v) d :: set_field_across_documents vector_field field vs ds
    else d :: set_field_across_documents vector_field field values ds

/-- Output of a third-party model's fit call: whether it is a numpy array,
and the raw label codes. -/
structure ModelOut where
  is_ndarray : Bool
  labels : List Int

/-- An opaque third-party model: fitting may raise (`Except.error` carries the
exception's message). -/
abbrev Model := List Vec → Except String ModelOut

/-- The label-producing dispatch of `_fit_predict` (cluster.py:279-302): the
third-party fit call may itself raise; only the `"custom"` package performs the
ndarray check and the `labels.shape[0] != vectors.shape[0]` validation. -/
def fit_predict_labels (package : String) (model : Model) (vectors : List Vec) :
    Except String (List Int) :=
  match model vectors with
  | .error e => .error e
  | .ok out =>
    if package = "custom" then
      if out.is_ndarray = false then
        .error "Custom model must output np.ndarray for labels"
      else if out.labels.length ≠ vectors.length then
        .error "incorrect shape"
      else .ok out.labels
    else .ok out.labels

/-- The instance state of `ClusterOps` used by the workflow. -/
structure ClusterOpsState where
  alias_ : String
  outlier_value : Int
  outlier_label : String
  package : String
  dataset_id : Option String
  vector_field : Option String

/-- The label field path `f"_cluster_.{vector_field}.{self.alias}"`
(cluster.py:306). -/
def cluster_field (vector_field alias_ : String) : String :=
  "_cluster_." ++ vector_field ++ "." ++ alias_

/-- Embedding of `ClusterOps._fit_predict` (cluster.py:268-313). -/
def fit_predict (st : ClusterOpsState) (model : Model) (documents : List Document)
    (vector_field : String) : Except String (List CentroidDoc × List Document) :=
  let vectors := matrixOf vector_field documents
  match fit_predict_labels st.package model vectors with
  | .error e => .error e
  | .ok raw =>
    let labels := format_labels st.outlier_value st.outlier_label raw
    let docs := set_field_across_documents vector_field
      (cluster_field vector_field st.alias_) labels documents
    .ok (get_centroid_documents vectors labels, docs)

/-- The write issued by `ClusterOps._insert_centroids` (cluster.py:255-266):
it always carries `self.alias`. -/
structure CentroidInsert where
  dataset_id : String
  cluster_centers : List CentroidDoc
  vector_fields : List String
  alias_ : String
deriving DecidableEq

/-- Embedding of `ClusterOps._insert_centroids`. -/
def insert_centroids (st : ClusterOpsState) (dataset_id : String) (vector_field : String)
    (centroid_documents : List CentroidDoc) : CentroidInsert :=
  ⟨dataset_id, centroid_documents, [vector_field], st.alias_⟩

/-- A remote mutation issued by `operate`. -/
inductive RemoteWrite
  | update_documents (dataset_id : String) (documents : List Document)
  | insert (req : CentroidInsert)
deriving DecidableEq

/-- Embedding of `ClusterOps.operate` (cluster.py:319-368): after the document
fetch (a read; the fetched documents are a parameter), `_fit_predict` runs
first, and only on success are `_update_documents` and `_insert_centroids`
issued, in that order. The result pairs the list of remote writes actually
issued with the raised exception, if any. -/
def operate (st : ClusterOpsState) (model : Model) (fetched : List Document)
    (dataset_id : String) (vector_fields : List String) :
    List RemoteWrite × Option String :=
  let vector_field := vector_fields.headD ""
  match fit_predict st model fetched vector_field with
  | .error e => ([], some e)
  | .ok (centroid_documents, labelled_documents) =>
    ([.update_documents dataset_id labelled_documents,
      .insert (insert_centroids st dataset_id vector_field centroid_documents)], none)

theorem is_field_set_field_self (f : String) (v : FieldValue) :
    ∀ d : Document, is_field f (set_field f v d) = true := by
  intro d
  induction d with
  | nil => simp [set_field, is_field]
  | cons kv doc ih =>
    by_cases hkv : kv.1 = f
    · simp [set_field, hkv, is_field]
    · simp only [set_field, if_neg hkv, is_field, List.any_cons]
      simp only [is_field] at ih
      simp [ih]

theorem get_field_set_field_self (f : String) (v : FieldValue) :
    ∀ d : Document, get_field f (set_field f v d) = v := by
  intro d
  induction d with
  | nil => simp [set_field, get_field]
  | cons kv doc ih =>
    by_cases hkv : kv.1 = f
    · simp [set_field, hkv, get_field]
    · simp only [set_field, if_neg hkv, get_field, List.find?]
      rw [show (decide (kv.1 = f)) = false from by simpa using hkv]
      simpa [get_field] using ih

theorem is_field_set_field_ne (f₁ f₂ : String) (v : FieldValue) (h : f₁ ≠ f₂) :
    ∀ d : Document, is_field f₁ (set_field f₂ v d) = is_field f₁ d := by
  intro d
  have h' : ¬ f₂ = f₁ := fun he => h he.symm
  induction d with
  | nil => simp [set_field, is_field, h']
  | cons kv doc ih =>
    by_cases hkv : kv.1 = f₂
    · simp [set_field, hkv, is_field, h']
    · simp only [set_field, if_neg hkv, is_field, List.any_cons]
      simp only [is_field] at ih
      simp [ih]

theorem get_field_set_field_ne (f₁ f₂ : String) (v : FieldValue) (h : f₁ ≠ f₂) :
    ∀ d : Document, get_field f₁ (set_field f₂ v d) = get_field f₁ d := by
  intro d
  have h' : (decide (f₂ = f₁)) = false := by simpa using fun he : f₂ = f₁ => h he.symm
  induction d with
  | nil => simp [set_field, get_field, List.find?, h']
  | cons kv doc ih =>
    by_cases hkv : kv.1 = f₂
    · simp only [set_field, if_pos hkv, get_field, List.find?]
      rw [h', show (decide (kv.1 = f₁)) = false from by
          simpa using fun he : kv.1 = f₁ => h (he.symm.trans hkv)]
    · simp only [set_field, if_neg hkv, get_field, List.find?]
      cases hdec : decide (kv.1 = f₁) with
      | true => rfl
      | false => simpa [get_field] using ih

/-- The rank of document `i` among the documents containing the vector field:
its row index in the fitted matrix. -/
def rankBefore (vector_field : String) (documents : List Document) (i : Nat) : Nat :=
  ((documents.take i).filter fun d => is_field vector_field d).length

theorem set_field_across_documents_spec (vector_field field : String) :
    ∀ (documents : List Document) (values : List String),
      values.length = (documents.filter fun d => is_field vector_field d).length →
      ∀ (i : Nat) (d : Document), documents[i]? = some d →
        (is_field vector_field d = false →
          (set_field_across_documents vector_field field values documents)[i]? = some d) ∧
        (is_field vector_field d = true →
          (set_field_across_documents vector_field field values documents)[i]? =
            some (set_field field
              (.str (values.getD (rankBefore vector_field documents i) "")) d)) := by
  intro documents
  induction documents with
  | nil =>
    intro values _ i d hd
    simp at hd
  | cons d0 ds ih =>
    intro values hlen i d hd
    cases h0 : is_field vector_field d0 with
    | true =>
      rw [List.filter_cons_of_pos (by simpa using h0), List.length_cons] at hlen
      cases values with
      | nil => simp at hlen
      | cons v vs =>
        rw [show set_field_across_documents vector_field field (v :: vs) (d0 :: ds) =
            set_field field (.str v) d0 ::
              set_field_across_documents vector_field field vs ds from by
          simp [set_field_across_documents, h0]]
        cases i with
        | zero =>
          have hd0 : d = d0 := by simpa using hd.symm
          subst hd0
          constructor
          · intro hf; rw [hf] at h0; exact absurd h0 (by simp)
          · intro _
            simp [rankBefore]
        | succ i =>
          have hd' : ds[i]? = some d := by simpa using hd
          have hrank : rankBefore vector_field (d0 :: ds) (i + 1) =
              rankBefore vector_field ds i + 1 := by
            simp [rankBefore, List.filter_cons, h0]
          have := ih vs (by simpa using hlen) i d hd'
          constructor
          · intro hf
            simpa using (this.1 hf)
          · intro hf
            rw [hrank]
            simpa [List.getD_cons_succ] using (this.2 hf)
    | false =>
      rw [List.filter_cons_of_neg (by simpa using h0)] at hlen
      rw [show set_field_across_documents vector_field field values (d0 :: ds) =
          d0 :: set_field_across_documents vector_field field values ds from by
        simp [set_field_across_documents, h0]]
      cases i with
      | zero =>
        have hd0 : d = d0 := by simpa using hd.symm
        subst hd0
        constructor
        · intro _; simp
        · intro hf; rw [hf] at h0; exact absurd h0 (by simp)
      | succ i =>
        have hd' : ds[i]? = some d := by simpa using hd
        have hrank : rankBefore vector_field (d0 :: ds) (i + 1) =
            rankBefore vector_field ds i := by
          simp [rankBefore, List.filter_cons, h0]
        have := ih values hlen i d hd'
        constructor
        · intro hf
          simpa using (this.1 hf)
        · intro hf
          rw [hrank]
          simpa using (this.2 hf)

theorem matrixOf_rankBefore (vector_field : String) :
    ∀ (documents : List Document) (i : Nat) (d : Document),
      documents[i]? = some d → is_field vector_field d = true →
      (matrixOf vector_field documents)[rankBefore vector_field documents i]? =
        some (asVec (get_field vector_field d)) := by
  intro documents
  induction documents with
  | nil => intro i d hd; simp at hd
  | cons d0 ds ih =>
    intro i d hd hf
    cases h0 : is_field vector_field d0 with
    | true =>
      have hmat : matrixOf vector_field (d0 :: ds) =
          asVec (get_field vector_field d0) :: matrixOf vector_field ds := by
        simp [matrixOf, List.filter_cons, h0]
      cases i with
      | zero =>
        have hd0 : d = d0 := by simpa using hd.symm
        subst hd0
        simp [hmat, rankBefore]
      | succ i =>
        have hd' : ds[i]? = some d := by simpa using hd
        have hrank : rankBefore vector_field (d0 :: ds) (i + 1) =
            rankBefore vector_field ds i + 1 := by
          simp [rankBefore, List.filter_cons, h0]
        rw [hmat, hrank]
        simpa using ih i d hd' hf
    | false =>
      have hmat : matrixOf vector_field (d0 :: ds) = matrixOf vector_field ds := by
        simp [matrixOf, List.filter_cons, h0]
      cases i with
      | zero =>
        have hd0 : d = d0 := by simpa using hd.symm
        subst hd0
        rw [hf] at h0
        exact absurd h0 (by simp)
      | succ i =>
        have hd' : ds[i]? = some d := by simpa using hd
        have hrank : rankBefore vector_field (d0 :: ds) (i + 1) =
            rankBefore vector_field ds i := by
          simp [rankBefore, List.filter_cons, h0]
        rw [hmat, hrank]
        exact ih i d hd' hf

/-! ## `ClusterOps._get_model` and `ClusterOps._get_alias` -/

/-- A model reference passed to the constructor: an algorithm name string, or
an already-instantiated object (opaque; identified by its class name). -/
inductive ModelRef
  | name (s : String)
  | obj (className : String)

/-- What `_get_model` hands back: a model constructed from a recognised name,
the input string unchanged (the fall-through for unrecognised names), or the
object passed through as a custom model. -/
inductive GetModelResult
  | constructed (backend : String)
  | rawString (s : String)
  | passthrough (className : String)
deriving DecidableEq

/-- Embedding of `model.lower().replace(" ", "").replace("_", "")`
(cluster.py:134). -/
def normalize_model_name (s : String) : String :=
  String.mk ((s.data.map Char.toLower).filter fun c => ¬ (c = ' ' ∨ c = '_'))

/-- Whether `pat` is an initial segment of `s`. -/
def startsWithChars : List Char → List Char → Bool
  | [], _ => true
  | _ :: _, [] => false
  | p :: ps, c :: cs => p == c && startsWithChars ps cs

/-- Whether `pat` occurs as a contiguous substring of `s`. -/
def containsChars (pat : List Char) : List Char → Bool
  | [] => decide (pat = [])
  | c :: cs => startsWithChars pat (c :: cs) || containsChars pat cs

/-- Embedding of Python's `"faiss" in model` substring test (cluster.py:213). -/
def contains_faiss (s : String) : Bool :=
  containsChars "faiss".data s.data

/-- The name-dispatch chain of `_get_model` (cluster.py:141-216) on the
normalised name: every branch produces a model, and a name matching no branch
falls through to the final `return model`, handing back the *string itself*. -/
def get_model_name (s : String) : GetModelResult :=
  if s = "affinitypropagation" then .constructed "sklearn.AffinityPropagation"
  else if s = "agglomerativeclustering" then .constructed "sklearn.AgglomerativeClustering"
  else if s = "birch" then .constructed "sklearn.Birch"
  else if s = "dbscan" then .constructed "sklearn.DBSCAN"
  else if s = "optics" then .constructed "sklearn.OPTICS"
  else if s = "kmeans" then .constructed "sklearn.KMeans"
  else if s = "featureagglomeration" then .constructed "sklearn.FeatureAgglomeration"
  else if s = "meanshift" then .constructed "sklearn.MeanShift"
  else if s = "minibatchkmeans" then .constructed "sklearn.MiniBatchKMeans"
  else if s = "spectralclustering" then .constructed "sklearn.SpectralClustering"
  else if s = "spectralbiclustering" then .constructed "sklearn.SpectralBiclustering"
  else if s = "spectralcoclustering" then .constructed "sklearn.SpectralCoclustering"
  else if s = "hdbscan" then .constructed "hdbscan.HDBSCAN"
  else if s = "community_detection" then
    .constructed "sentence_transformers.community_detection"
  else if contains_faiss s then .constructed "faiss.Kmeans"
  else .rawString s

/-- Embedding of `ClusterOps._get_model` (cluster.py:132-222). Non-string
models return immediately (package `"custom"`). A string name is normalised
and dispatched through `get_model_name`, whose every branch returns. The
`raise ValueError("ModelNotSupported")` in the source sits on the `else` of
the second `isinstance(model, str)` test, which is always true on the string
path (and the object path has already returned), so no call raises: the
`Except.error` case of the return type is never produced. -/
def get_model (m : ModelRef) : Except String GetModelResult :=
  match m with
  | .obj c => .ok (.passthrough c)
  | .name s0 => .ok (get_model_name (normalize_model_name s0))

/-- Embedding of Python `str.lower` (used by `_get_alias`). -/
def lowerStr (s : String) : String :=
  String.mk (s.data.map Char.toLower)

/-- The auto-generated alias of `_get_alias` when none was supplied:
`f"{model_name}-{n_clusters}"` when the model exposes a cluster count
(`n_clusters`, or `k` — both yield the same format), else the model name. -/
def auto_alias (model_name : String) (n_clusters : Option Int) : String :=
  match n_clusters with
  | some n => model_name ++ "-" ++ strInt n
  | none => model_name

/-- Embedding of `ClusterOps._get_alias` (cluster.py:87-108): the caller's
alias when supplied, else the auto-generated one; the result is always
`.lower()`-ed at the single return point. -/
def get_alias (model_name : String) (n_clusters : Option Int) (alias_ : Option String) :
    String :=
  lowerStr (match alias_ with
    | some a => a
    | none => auto_alias model_name n_clusters)

/-- The centroid query issued by `closest`/`furthest` to
`services.cluster.centroids.list_closest_to_center` /
`list_furthest_from_center`. -/
structure CentroidQuery where
  dataset_id : Option String
  vector_fields : List (Option String)
  alias_ : String
deriving DecidableEq

/-- Embedding of `ClusterOps.closest` (cluster.py:370-424): each of
`dataset_id` / `vector_field` / `alias` falls back to the stored instance
value when the argument is `None`, and is used verbatim otherwise. -/
def closest (st : ClusterOpsState) (dataset_id vector_field alias_ : Option String) :
    CentroidQuery :=
  ⟨(match dataset_id with
    | none => st.dataset_id
    | some d => some d),
   [(match vector_field with
    | none => st.vector_field
    | some v => some v)],
   (match alias_ with
    | none => st.alias_
    | some a => a)⟩

/-- Embedding of `ClusterOps.furthest` (cluster.py:426-480): identical
defaulting to `closest`. -/
def furthest (st : ClusterOpsState) (dataset_id vector_field alias_ : Option String) :
    CentroidQuery :=
  ⟨(match dataset_id with
    | none => st.dataset_id
    | some d => some d),
   [(match vector_field with
    | none => st.vector_field
    | some v => some v)],
   (match alias_ with
    | none => st.alias_
    | some a => a)⟩

/-- C1 (code bug): `_get_model` never raises on an unrecognised model-name
string — the string itself is returned as the "model" (the
`raise ValueError("ModelNotSupported")` sits on the `else` of an
`isinstance(model, str)` test that is always true on the string path, so it is
unreachable); in particular `"not-a-real-model"` yields no error. -/
theorem get_model_unknown_name :
    get_model (.name "not-a-real-model") = .ok (.rawString "not-a-real-model") ∧
    ∀ m : ModelRef, ∃ out, get_model m = .ok out := by
  constructor
  · show Except.ok (get_model_name (normalize_model_name "not-a-real-model")) = _
    have h : get_model_name (normalize_model_name "not-a-real-model") =
        .rawString "not-a-real-model" := by decide
    rw [h]
  · intro m
    cases m with
    | obj c => exact ⟨_, rfl⟩
    | name s => exact ⟨_, rfl⟩

/-- C2 counterexample: on a concrete run, canonical labels are attached under
`_cluster_.<vector_field>.<alias>`, not `cluster.<vector_field>.<alias>` as
claimed, and a fetched document missing the vector field receives no label. -/
theorem fit_predict_path_counterexample :
    (fit_predict ⟨"a1", -1, "outlier", "custom", none, none⟩
        (fun vs => .ok ⟨true, (List.range vs.length).map Int.ofNat⟩)
        [[("vf", .vec [0, 0])], [("other", .str "x")], [("vf", .vec [2, 2])]]
        "vf").toOption.map Prod.snd =
      some [[("vf", .vec [0, 0]), ("_cluster_.vf.a1", .str "cluster-0")],
        [("other", .str "x")],
        [("vf", .vec [2, 2]), ("_cluster_.vf.a1", .str "cluster-1")]] ∧
    cluster_field "vf" "a1" = "_cluster_.vf.a1" ∧
    cluster_field "vf" "a1" ≠ "cluster.vf.a1" ∧
    is_field "cluster.vf.a1"
      [("vf", FieldValue.vec [0, 0]), ("_cluster_.vf.a1", FieldValue.str "cluster-0")] =
      false := by
  refine ⟨rfl, by decide, by decide, by decide⟩

/-- C2 (amended): `_fit_predict` attaches the canonical label of every fetched
document that contains the vector field under the path
`_cluster_.<vector_field>.<alias>`; the path is injective in the alias for a
fixed vector field, and setting one alias's label field leaves any other field
untouched, so clusterings under distinct aliases coexist on the same
dataset. -/
theorem fit_predict_cluster_path (st : ClusterOpsState) (model : Model)
    (documents : List Document) (vector_field : String) (raw : List Int)
    (hraw : fit_predict_labels st.package model (matrixOf vector_field documents) = .ok raw)
    (hlen : raw.length = (matrixOf vector_field documents).length) :
    (fit_predict st model documents vector_field =
      .ok (get_centroid_documents (matrixOf vector_field documents)
            (format_labels st.outlier_value st.outlier_label raw),
        set_field_across_documents vector_field (cluster_field vector_field st.alias_)
          (format_labels st.outlier_value st.outlier_label raw) documents)) ∧
    (∀ (i : Nat) (d : Document), documents[i]? = some d → is_field vector_field d = true →
      ∃ d' : Document,
        (set_field_across_documents vector_field (cluster_field vector_field st.alias_)
          (format_labels st.outlier_value st.outlier_label raw) documents)[i]? = some d' ∧
        is_field (cluster_field vector_field st.alias_) d' = true ∧
        get_field (cluster_field vector_field st.alias_) d' =
          .str ((format_labels st.outlier_value st.outlier_label raw).getD
            (rankBefore vector_field documents i) "")) ∧
    (∀ vf a₁ a₂ : String, a₁ ≠ a₂ → cluster_field vf a₁ ≠ cluster_field vf a₂) ∧
    (∀ (f₁ f₂ : String) (v : FieldValue) (d : Document), f₁ ≠ f₂ →
      is_field f₁ (set_field f₂ v d) = is_field f₁ d ∧
      get_field f₁ (set_field f₂ v d) = get_field f₁ d) := by
  have hv : (format_labels st.outlier_value st.outlier_label raw).length =
      (documents.filter fun d => is_field vector_field d).length := by
    rw [format_labels, List.length_map, hlen, matrixOf, List.length_map]
  refine ⟨?_, ?_, ?_, ?_⟩
  · simp [fit_predict, hraw]
  · intro i d hd hf
    have hspec := (set_field_across_documents_spec vector_field
      (cluster_field vector_field st.alias_) documents
      (format_labels st.outlier_value st.outlier_label raw) hv i d hd).2 hf
    refine ⟨_, hspec, is_field_set_field_self _ _ d, get_field_set_field_self _ _ d⟩
  · intro vf a₁ a₂ hne h
    exact hne (string_append_left_cancel h)
  · intro f₁ f₂ v d hne
    exact ⟨is_field_set_field_ne f₁ f₂ v hne d, get_field_set_field_ne f₁ f₂ v hne d⟩

/-- Witness for C2's amended theorem at a concrete custom-model run. -/
theorem fit_predict_cluster_path_witness :
    (fit_predict_labels "custom"
        (fun vs => .ok ⟨true, (List.range vs.length).map Int.ofNat⟩)
        (matrixOf "vf" [[("vf", .vec [0, 0])], [("other", .str "x")], [("vf", .vec [2, 2])]]) =
      .ok [0, 1]) ∧
    ([0, 1] : List Int).length =
      (matrixOf "vf"
        [[("vf", .vec [0, 0])], [("other", .str "x")], [("vf", .vec [2, 2])]]).length ∧
    fit_predict ⟨"a1", -1, "outlier", "custom", none, none⟩
        (fun vs => .ok ⟨true, (List.range vs.length).map Int.ofNat⟩)
        [[("vf", .vec [0, 0])], [("other", .str "x")], [("vf", .vec [2, 2])]] "vf" =
      .ok (get_centroid_documents
            (matrixOf "vf" [[("vf", .vec [0, 0])], [("other", .str "x")], [("vf", .vec [2, 2])]])
            (format_labels (-1) "outlier" [0, 1]),
        set_field_across_documents "vf" (cluster_field "vf" "a1")
          (format_labels (-1) "outlier" [0, 1])
          [[("vf", .vec [0, 0])], [("other", .str "x")], [("vf", .vec [2, 2])]]) :=
  ⟨by decide, by decide,
    (fit_predict_cluster_path ⟨"a1", -1, "outlier", "custom", none, none⟩
      (fun vs => .ok ⟨true, (List.range vs.length).map Int.ofNat⟩)
      [[("vf", .vec [0, 0])], [("other", .str "x")], [("vf", .vec [2, 2])]] "vf" [0, 1]
      (by decide) (by decide)).1⟩

/-- C3: `_fit_predict` builds the vector matrix from exactly the documents
containing the selected vector field (the others are silently excluded);
documents missing the field pass through unchanged, receiving no cluster
label, and the document at position `i` that does contain the field receives
the formatted label at its own row index in the matrix — the row holding
precisely its own vector. -/
theorem fit_predict_alignment (st : ClusterOpsState) (model : Model)
    (documents : List Document) (vector_field : String) (raw : List Int)
    (hraw : fit_predict_labels st.package model (matrixOf vector_field documents) = .ok raw)
    (hlen : raw.length = (matrixOf vector_field documents).length) :
    ((matrixOf vector_field documents).length =
      (documents.filter fun d => is_field vector_field d).length) ∧
    (∀ (i : Nat) (d : Document), documents[i]? = some d →
      (is_field vector_field d = false →
        (set_field_across_documents vector_field (cluster_field vector_field st.alias_)
          (format_labels st.outlier_value st.outlier_label raw) documents)[i]? = some d) ∧
      (is_field vector_field d = true →
        (set_field_across_documents vector_field (cluster_field vector_field st.alias_)
          (format_labels st.outlier_value st.outlier_label raw) documents)[i]? =
          some (set_field (cluster_field vector_field st.alias_)
            (.str ((format_labels st.outlier_value st.outlier_label raw).getD
              (rankBefore vector_field documents i) "")) d) ∧
        (matrixOf vector_field documents)[rankBefore vector_field documents i]? =
          some (asVec (get_field vector_field d)))) ∧
    fit_predict st model documents vector_field =
      .ok (get_centroid_documents (matrixOf vector_field documents)
            (format_labels st.outlier_value st.outlier_label raw),
        set_field_across_documents vector_field (cluster_field vector_field st.alias_)
          (format_labels st.outlier_value st.outlier_label raw) documents) := by
  have hv : (format_labels st.outlier_value st.outlier_label raw).length =
      (documents.filter fun d => is_field vector_field d).length := by
    rw [format_labels, List.length_map, hlen, matrixOf, List.length_map]
  refine ⟨by rw [matrixOf, List.length_map], ?_, by simp [fit_predict, hraw]⟩
  intro i d hd
  have hspec := set_field_across_documents_spec vector_field
    (cluster_field vector_field st.alias_) documents
    (format_labels st.outlier_value st.outlier_label raw) hv i d hd
  exact ⟨hspec.1, fun hf => ⟨hspec.2 hf, matrixOf_rankBefore vector_field documents i d hd hf⟩⟩

/-- Witness for C3 at a concrete custom-model run with one document missing
the vector field. -/
theorem fit_predict_alignment_witness :
    (fit_predict_labels "custom"
        (fun vs => .ok ⟨true, (List.range vs.length).map Int.ofNat⟩)
        (matrixOf "vf" [[("vf", .vec [0, 0])], [("other", .str "x")], [("vf", .vec [2, 2])]]) =
      .ok [0, 1]) ∧
    ([0, 1] : List Int).length =
      (matrixOf "vf"
        [[("vf", .vec [0, 0])], [("other", .str "x")], [("vf", .vec [2, 2])]]).length ∧
    (matrixOf "vf" [[("vf", .vec [0, 0])], [("other", .str "x")], [("vf", .vec [2, 2])]]).length =
      ([[("vf", FieldValue.vec [0, 0])], [("other", FieldValue.str "x")],
        [("vf", FieldValue.vec [2, 2])]].filter fun d => is_field "vf" d).length :=
  ⟨by decide, by decide,
    (fit_predict_alignment ⟨"a1", -1, "outlier", "custom", none, none⟩
      (fun vs => .ok ⟨true, (List.range vs.length).map Int.ofNat⟩)
      [[("vf", .vec [0, 0])], [("other", .str "x")], [("vf", .vec [2, 2])]] "vf" [0, 1]
      (by decide) (by decide)).1⟩

/-- C4 counterexample: on an empty fetch with a model that (like scikit-learn)
raises on zero samples, `operate` propagates the model's own exception —
there is no `EmptyInputError` anywhere in the code — though indeed with no
write issued. -/
theorem operate_empty_counterexample :
    operate ⟨"kmeans-8", -1, "outlier", "sklearn", none, none⟩
        (fun _ => .error "Found array with 0 sample(s)") [] "ds" ["vf"] =
      ([], some "Found array with 0 sample(s)") ∧
    "Found array with 0 sample(s)" ≠ "EmptyInputError" := by
  exact ⟨rfl, by decide⟩

/-- C4 (amended): when there are zero vectors to fit (empty dataset, or the
vector field missing from every fetched document) and the model's fit raises
on the empty matrix, `operate` fails with that same propagated exception and
the remote-write log is empty: no document update and no centroid upsert
precede the failure. -/
theorem operate_empty_no_writes (st : ClusterOpsState) (model : Model)
    (fetched : List Document) (dataset_id : String) (vector_fields : List String)
    (e : String)
    (hempty : ∀ d ∈ fetched, is_field (vector_fields.headD "") d = false)
    (herr : model [] = .error e) :
    operate st model fetched dataset_id vector_fields = ([], some e) := by
  simp only [List.headD_eq_head?_getD] at hempty
  have hmat : matrixOf (vector_fields.head?.getD "") fetched = [] := by
    rw [matrixOf, List.map_eq_nil_iff, List.filter_eq_nil_iff]
    intro d hd
    simp [hempty d hd]
  simp [operate, fit_predict, hmat, fit_predict_labels, herr]

/-- Witness for C4's amended theorem: a fetch whose only document lacks the
vector field, and a model that raises on the empty matrix. -/
theorem operate_empty_no_writes_witness :
    (∀ d ∈ [[("other", FieldValue.str "x")]], is_field (["vf"].headD "") d = false) ∧
    operate ⟨"kmeans-8", -1, "outlier", "sklearn", none, none⟩
        (fun _ => .error "zero samples") [[("other", FieldValue.str "x")]] "ds" ["vf"] =
      ([], some "zero samples") :=
  ⟨by decide,
    operate_empty_no_writes ⟨"kmeans-8", -1, "outlier", "sklearn", none, none⟩
      (fun _ => .error "zero samples") [[("other", FieldValue.str "x")]] "ds" ["vf"]
      "zero samples" (by decide) rfl⟩

/-- C5: when a custom model's `fit_predict` returns an ndarray whose length
differs from the number of input vectors, `operate` fails with the dedicated
shape error (`ValueError("incorrect shape")`, the code's realisation of
`ShapeMismatchError`) and the remote-write log is empty: no document update
and no centroid upsert were performed. -/
theorem operate_shape_mismatch (st : ClusterOpsState) (model : Model)
    (fetched : List Document) (dataset_id : String) (vector_fields : List String)
    (out : ModelOut)
    (hpkg : st.package = "custom")
    (hm : model (matrixOf (vector_fields.headD "") fetched) = .ok out)
    (hnd : out.is_ndarray = true)
    (hshape : out.labels.length ≠ (matrixOf (vector_fields.headD "") fetched).length) :
    operate st model fetched dataset_id vector_fields = ([], some "incorrect shape") := by
  simp only [List.headD_eq_head?_getD] at hm hshape
  simp [operate, fit_predict, fit_predict_labels, hm, hpkg, hnd, hshape]

/-- Witness for C5: a custom model returning three labels for a one-row
matrix. -/
theorem operate_shape_mismatch_witness :
    (("custom" : String) = "custom") ∧
    ((fun _ => .ok ⟨true, [0, 1, 2]⟩ : Model)
        (matrixOf (["vf"].headD "") [[("vf", FieldValue.vec [1])]]) = .ok ⟨true, [0, 1, 2]⟩) ∧
    (([0, 1, 2] : List Int).length ≠
      (matrixOf (["vf"].headD "") [[("vf", FieldValue.vec [1])]]).length) ∧
    operate ⟨"a1", -1, "outlier", "custom", none, none⟩
        (fun _ => .ok ⟨true, [0, 1, 2]⟩) [[("vf", FieldValue.vec [1])]] "ds" ["vf"] =
      ([], some "incorrect shape") :=
  ⟨rfl, rfl, by decide,
    operate_shape_mismatch ⟨"a1", -1, "outlier", "custom", none, none⟩
      (fun _ => .ok ⟨true, [0, 1, 2]⟩) [[("vf", FieldValue.vec [1])]] "ds" ["vf"]
      ⟨true, [0, 1, 2]⟩ rfl rfl rfl (by decide)⟩

/-- C10 counterexample: an explicit mixed-case `alias` argument to `closest`
is passed to the centroid query verbatim, not lowercased — a caller-supplied
mixed-case alias does reach the remote namespace. -/
theorem closest_alias_override_counterexample :
    (closest ⟨get_alias "KMeans" (some 8) none, -1, "outlier", "sklearn", none, none⟩
        none none (some "MiXeD")).alias_ = "MiXeD" ∧
    lowerStr "MiXeD" = "mixed" ∧
    "MiXeD" ≠ lowerStr "MiXeD" ∧
    get_alias "KMeans" (some 8) none = "kmeans-8" := by
  exact ⟨rfl, by decide, by decide, by decide⟩

/-- C10 (amended): the stored alias — caller-supplied or auto-generated — is
always lowercased by `_get_alias`; every centroid insert carries the stored
alias, and `closest`/`furthest` use it whenever no explicit `alias` argument
is supplied (an explicit argument is used verbatim). -/
theorem alias_lowercased_usage :
    (∀ (mn : String) (nc : Option Int) (a : String),
      get_alias mn nc (some a) = lowerStr a) ∧
    (∀ (mn : String) (nc : Option Int),
      get_alias mn nc none = lowerStr (auto_alias mn nc)) ∧
    (∀ (st : ClusterOpsState) (did vf : String) (cds : List CentroidDoc),
      (insert_centroids st did vf cds).alias_ = st.alias_) ∧
    (∀ (st : ClusterOpsState) (d v : Option String),
      (closest st d v none).alias_ = st.alias_ ∧
      (furthest st d v none).alias_ = st.alias_) ∧
    (∀ (st : ClusterOpsState) (d v : Option String) (a : String),
      (closest st d v (some a)).alias_ = a ∧
      (furthest st d v (some a)).alias_ = a) :=
  ⟨fun _ _ _ => rfl, fun _ _ => rfl, fun _ _ _ _ => rfl,
    fun _ _ _ => ⟨rfl, rfl⟩, fun _ _ _ _ => ⟨rfl, rfl⟩⟩
